import Mathlib

/-!
# Verification of the Light_To_Sheet frame-analysis pipeline

Shallow embedding of `src/main.py` (the 88-key piano brightness analyzer).
Python strings are modelled as `List Char`, pixel rows as functions
`Nat → Nat` (grayscale intensities 0–255 at `y = 0`), floating-point means
as exact rationals (`ℚ`), and NumPy's NaN (mean of an empty slice) as
`Option.none`.
-/

set_option maxRecDepth 100000

namespace LightToSheet

/-- Table `helper` from `main.py` line 58: the repeating 12-key width pattern. -/
def helper : List Nat := [28, 15, 21, 15, 28, 28, 15, 20, 15, 21, 15, 28]

/-- Table `vertical_slices` from `main.py` line 59: the 88 slice widths. -/
def vertical_slices : List Nat := [29, 15, 28] ++ (List.replicate 7 helper).flatten ++ [33]

/-- Table `tags` from `main.py` line 60: the 12 pitch-class names starting at C. -/
def tags : List (List Char) :=
  [['C'], ['C', '#'], ['D'], ['D', '#'], ['E'], ['F'],
   ['F', '#'], ['G'], ['G', '#'], ['A'], ['A', '#'], ['B']]

/-- Table `slices_tags` from `main.py` line 61: pitch-class name of each of the 88 slices. -/
def slices_tags : List (List Char) :=
  [['A'], ['A', '#'], ['B']] ++ (List.replicate 7 tags).flatten ++ [['C']]

/-- Decimal rendering of a natural number (one digit per character), modelling
Python's `f"{octave}"` string interpolation of a nonnegative int.  Structural
recursion on a fuel argument so the kernel can evaluate it. -/
def natDigitsCore : Nat → Nat → List Char
  | 0, _ => []
  | fuel + 1, n =>
    if n < 10 then [Nat.digitChar n]
    else natDigitsCore fuel (n / 10) ++ [Nat.digitChar (n % 10)]

/-- Decimal rendering of a natural number. -/
def natDigits (n : Nat) : List Char := natDigitsCore (n + 1) n

/-- The loop of `main.py` lines 64–76 that generates `piano_notes`:
walks `slices_tags` with index `i` and an `octave` register, setting the
octave to 0 at `i = 0`, to 1 at the first "C" (`i = 3`), and incrementing it
at every later "C"; appends `f"{note}{octave}"` at each step. -/
def pianoNotesLoop : List (List Char) → Nat → Nat → List (List Char)
  | [], _, _ => []
  | note :: restNotes, i, octave =>
    let octave2 : Nat :=
      if i = 0 then 0
      else if note = ['C'] ∧ i = 3 then 1
      else if note = ['C'] ∧ 3 < i then octave + 1
      else octave
    (note ++ natDigits octave2) :: pianoNotesLoop restNotes (i + 1) octave2

/-- Table `piano_notes` from `main.py` lines 64–76: the 88 note labels A0 … C8. -/
def piano_notes : List (List Char) := pianoNotesLoop slices_tags 0 0

/-! ## PitchOrder (`get_note_pitch_value`, `format_note_3char`) -/

/-- Dictionary `note_values` from `main.py` lines 97–100: pitch-class index of each
note name within an octave. -/
def note_values : List (List Char × Nat) :=
  [(['C'], 0), (['C', '#'], 1), (['D'], 2), (['D', '#'], 3), (['E'], 4), (['F'], 5),
   (['F', '#'], 6), (['G'], 7), (['G', '#'], 8), (['A'], 9), (['A', '#'], 10), (['B'], 11)]

/-- Model of Python's `int(s)` on the strings that arise here (nonnegative
decimal numerals): succeeds exactly when `s` is a nonempty string of decimal
digits, returning its value; `none` models the `ValueError` raised otherwise. -/
def parseNat (s : List Char) : Option Nat :=
  if s ≠ [] ∧ s.all Char.isDigit then
    some (s.foldl (fun acc c => acc * 10 + (c.toNat - 48)) 0)
  else none

/-- Function `get_note_pitch_value` from `main.py` lines 86–103: split the label into
pitch-class name and octave digits (two leading characters when a `'#'` is
present, one otherwise), then return `octave * 12 + note_values[note]`.
`none` models the exception Python raises on a malformed label (failed
`int()` parse or missing dictionary key). -/
def get_note_pitch_value (s : List Char) : Option Nat :=
  let note : List Char := if s.contains '#' then s.take 2 else s.take 1
  let octaveDigits : List Char := if s.contains '#' then s.drop 2 else s.drop 1
  match parseNat octaveDigits, note_values.lookup note with
  | some octave, some v => some (octave * 12 + v)
  | _, _ => none

/-- Sort key actually used on the labels flowing through the pipeline: every
label in `piano_notes` parses, so the `Option.getD 0` default is never hit
there. -/
def pitchKey (s : List Char) : Nat := (get_note_pitch_value s).getD 0

/-- Descending-pitch comparison used to model
`active_notes.sort(key=get_note_pitch_value, reverse=True)` (line 355). -/
def pitchGe (a b : List Char) : Prop := pitchKey b ≤ pitchKey a

instance : DecidableRel pitchGe := fun _ _ => Nat.decLe _ _

instance : IsTotal (List Char) pitchGe :=
  ⟨fun x y => (Nat.le_total (pitchKey y) (pitchKey x)).imp id id⟩

instance : IsTrans (List Char) pitchGe :=
  ⟨fun _ _ _ h1 h2 => Nat.le_trans h2 h1⟩

/-- Python's `list.sort(key=..., reverse=True)` is a stable descending sort;
a stable sort under a total comparison is extensionally unique, so insertion
sort with `pitchGe` (which is stable) computes the same list. -/
def sortDesc (l : List (List Char)) : List (List Char) := l.insertionSort pitchGe

/-- The literal `'---'` used in `main.py` both for silence/rests (lines 361,
393) and for collapsed repeated notes (line 388). -/
def restMarker : List Char := ['-', '-', '-']

/-- Function `format_note_3char` from `main.py` lines 105–112: pad 2-character names
with a trailing space, keep 3-character names, and fall back to `'---'` for
any other length. -/
def format_note_3char (s : List Char) : List Char :=
  if s.length = 2 then s ++ [' ']
  else if s.length = 3 then s
  else ['-', '-', '-']

/-! ## FrameAnalyzer (`analyze_frame_brightness`) -/

/-- Sum of the grayscale row values over `[x, x + n)`, the numerator of
`np.mean(gray[0:1, x_start:x_end])`. -/
def regionSum (row : Nat → Nat) (x : Nat) : Nat → Nat
  | 0 => 0
  | n + 1 => row x + regionSum row (x + 1) n

/-- The mean `np.mean(gray[0:1, x_start:x_end])` as an exact rational.  On an empty
region NumPy returns NaN (with a runtime warning); `none` models that NaN. -/
def regionMean (row : Nat → Nat) (xStart xEnd : Nat) : Option ℚ :=
  if xEnd ≤ xStart then none
  else some ((regionSum row xStart (xEnd - xStart) : ℚ) / ((xEnd - xStart : Nat) : ℚ))

/-- Body of the slice loop in `main.py` lines 227–232: mean brightness,
percentage `mean / 255 * 100`, binarized against the fixed threshold 70.
In the `none` (NaN) case the Python comparison `nan > 70` is `False`, so the
appended value is 0. -/
def sliceActivation (row : Nat → Nat) (xStart xEnd : Nat) : Nat :=
  match regionMean row xStart xEnd with
  | none => 0
  | some m => if 70 < m / 255 * 100 then 1 else 0

/-- The slice loop of `main.py` lines 218–254: walk the width table carrying
`x_position`, clamping each `x_end` at the frame width 1848, and emit one
binarized activation per slice. -/
def brightnessLoop (row : Nat → Nat) : Nat → List Nat → List Nat
  | _, [] => []
  | pos, w :: ws =>
    sliceActivation row pos (min (pos + w) 1848) :: brightnessLoop row (min (pos + w) 1848) ws

/-- The `(x_start, x_end)` bounds the loop of lines 218–254 uses for each
slice, with the same clamping at 1848. -/
def sliceBounds : Nat → List Nat → List (Nat × Nat)
  | _, [] => []
  | pos, w :: ws => (pos, min (pos + w) 1848) :: sliceBounds (min (pos + w) 1848) ws

/-- Function `analyze_frame_brightness` from `main.py` lines 205–258 (without the
side-effecting visualization branch): the 88-element binary activation
vector of one grayscale frame, whose only inspected pixels are the
1-pixel-tall row at `y = 0`, modelled as `row : Nat → Nat`. -/
def analyze_frame_brightness (row : Nat → Nat) : List Nat :=
  brightnessLoop row 0 vertical_slices

/-! ## SheetComposer: per-frame column accumulation (`main.py` lines 348–363) -/

/-- The loop of `main.py` lines 349–352: collect `piano_notes[i]` for each
index `i` with `brightness_values[i] == 1`, in slice order. -/
def collectActive : List Nat → List (List Char) → List (List Char)
  | v :: vs, n :: ns =>
    if v = 1 then n :: collectActive vs ns else collectActive vs ns
  | _, _ => []

/-- The column built for one frame (`main.py` lines 349–363): active notes
sorted by descending pitch and formatted to 3 characters, or the single rest
marker `'---'` when no note is active. -/
def buildColumn (bv : List Nat) : List (List Char) :=
  let active := sortDesc (collectActive bv piano_notes)
  if active.isEmpty then [restMarker] else active.map format_note_3char

/-! ## SheetComposer: finalization (`main.py` lines 373–398) -/

/-- Value `max_notes` from `main.py` line 375: the maximum column length, or 1 when
no frame was processed. -/
def max_notes (cols : List (List (List Char))) : Nat :=
  if cols.isEmpty then 1 else (cols.map List.length).foldl Nat.max 0

/-- The inner column walk of `main.py` lines 380–394 for one row index `r`:
`prev` is the `prev_note` variable (initially Python `None`, modelled as
`Option.none`); a column entry is replaced by `'---'` exactly when it is not
`'---'` and equals `prev`; `prev` is updated to the entry whenever the entry
itself is emitted, and set to `'---'` when the column is too short. -/
def sheetRow (r : Nat) : List (List (List Char)) → Option (List Char) → List (List Char)
  | [], _ => []
  | col :: cols, prev =>
    match col[r]? with
    | some cur =>
      if cur ≠ restMarker ∧ some cur = prev then
        restMarker :: sheetRow r cols prev
      else
        cur :: sheetRow r cols (some cur)
    | none => restMarker :: sheetRow r cols (some restMarker)

/-- Modelled from the spec: the finalization row walk as worded in §4.5 and
claim C2 — a cursor over note labels (no Python `None`), starting at the rest
marker, resetting to the rest marker when a column has fewer than `r + 1`
entries, emitting the repeat marker exactly when the entry is not a rest and
equals the cursor, and updating the cursor only when the entry is emitted.
Used solely to compare the source's `sheetRow` against the spec's wording. -/
def sheetRowSpec (r : Nat) : List (List (List Char)) → List Char → List (List Char)
  | [], _ => []
  | col :: cols, cursor =>
    match col[r]? with
    | none => restMarker :: sheetRowSpec r cols restMarker
    | some e =>
      if e ≠ restMarker ∧ e = cursor then
        restMarker :: sheetRowSpec r cols cursor
      else
        e :: sheetRowSpec r cols e

/-- The sheet-music lines written by `main.py` lines 377–398: one line per
row index `0 .. max_notes - 1`. -/
def sheet_lines (cols : List (List (List Char))) : List (List (List Char)) :=
  (List.range (max_notes cols)).map (fun r => sheetRow r cols none)

/-! ## The frame loop of `process_video` (`main.py` lines 293–367)

A stream element is `none` for a corrupted frame (`frame is None or
frame.size == 0`) and `some row` for a valid frame whose top pixel row is
`row`.  Wall-clock sleeping, console printing and preview rendering carry no
data and are not modelled. -/

/-- Constant `frame_duration = 1.0 / fps` with `fps = 24.0` (`main.py` lines 277–278). -/
def frame_duration : ℚ := 1 / 24

/-- The mutable state of the frame loop: the raw `output.txt` lines (values
and timestamp), the `piano.csv` data rows (timestamp and values), the
buffered sheet-music columns, and the `frame_number` / `failed_frames`
counters. -/
structure ProcState where
  rawLines : List (List Nat × ℚ)
  csvLines : List (ℚ × List Nat)
  columns : List (List (List Char))
  frame_number : Nat
  failed_frames : Nat
  deriving DecidableEq

/-- The `while` loop of `main.py` lines 293–367: a corrupted frame bumps
`failed_frames` and `frame_number` and is otherwise skipped; a valid frame is
analyzed, logged to both files with timestamp `frame_number * frame_duration`,
turned into a sheet column, and then `frame_number` advances. -/
def processFrames : List (Option (Nat → Nat)) → ProcState → ProcState
  | [], s => s
  | none :: rest, s =>
    processFrames rest
      { s with failed_frames := s.failed_frames + 1, frame_number := s.frame_number + 1 }
  | some row :: rest, s =>
    let bv := analyze_frame_brightness row
    let ts : ℚ := s.frame_number * frame_duration
    processFrames rest
      { rawLines := s.rawLines ++ [(bv, ts)]
        csvLines := s.csvLines ++ [(ts, bv)]
        columns := s.columns ++ [buildColumn bv]
        frame_number := s.frame_number + 1
        failed_frames := s.failed_frames }

/-- Function `process_video` from `main.py` lines 260–409, restricted to its
data-producing core: run the frame loop from the empty initial state. -/
def process_video (frames : List (Option (Nat → Nat))) : ProcState :=
  processFrames frames ⟨[], [], [], 0, 0⟩

/-- Modelled from the spec (§8, skipped-frame accounting): the original frame
indices of the valid frames of a stream, starting from index `n`, each turned
into its timestamp `index * frame_duration`. -/
def validStamps : List (Option (Nat → Nat)) → Nat → List ℚ
  | [], _ => []
  | none :: rest, n => validStamps rest (n + 1)
  | some _ :: rest, n => ((n : ℚ) * frame_duration) :: validStamps rest (n + 1)

/-- The raw-log lines the loop produces for a stream whose first frame has
index `n`: one `(values, timestamp)` pair per valid frame. -/
def loggedRaw : List (Option (Nat → Nat)) → Nat → List (List Nat × ℚ)
  | [], _ => []
  | none :: rest, n => loggedRaw rest (n + 1)
  | some row :: rest, n =>
    (analyze_frame_brightness row, (n : ℚ) * frame_duration) :: loggedRaw rest (n + 1)

/-- The CSV data rows the loop produces, `(timestamp, values)` per valid frame. -/
def loggedCsv : List (Option (Nat → Nat)) → Nat → List (ℚ × List Nat)
  | [], _ => []
  | none :: rest, n => loggedCsv rest (n + 1)
  | some row :: rest, n =>
    ((n : ℚ) * frame_duration, analyze_frame_brightness row) :: loggedCsv rest (n + 1)

/-- Modelled from the spec (§3, NoteName): the pitch-class part of a note
label, used only to state C6. -/
def tagOf (s : List Char) : List Char :=
  if s.contains '#' then s.take 2 else s.take 1

/-- Modelled from the spec (§3, NoteName): the octave number parsed from a
note label's digits, used only to state C6. -/
def octaveOf (s : List Char) : Option Nat :=
  parseNat (if s.contains '#' then s.drop 2 else s.drop 1)

/-! ## Helper lemmas -/

lemma foldl_max_le_self (l : List Nat) (a : Nat) : a ≤ l.foldl Nat.max a := by
  induction l generalizing a with
  | nil => exact Nat.le_refl a
  | cons x xs ih => exact Nat.le_trans (Nat.le_max_left a x) (ih (Nat.max a x))

lemma le_foldl_max (l : List Nat) (a : Nat) : ∀ x ∈ l, x ≤ l.foldl Nat.max a := by
  induction l generalizing a with
  | nil => intro x hx; cases hx
  | cons y ys ih =>
    intro x hx
    rcases List.mem_cons.mp hx with rfl | hx
    · exact Nat.le_trans (Nat.le_max_right a x) (foldl_max_le_self ys (Nat.max a x))
    · exact ih (Nat.max a y) x hx

lemma foldl_max_mem (l : List Nat) (a : Nat) :
    l.foldl Nat.max a = a ∨ l.foldl Nat.max a ∈ l := by
  induction l generalizing a with
  | nil => left; rfl
  | cons y ys ih =>
    rcases ih (Nat.max a y) with h | h
    · rcases Nat.le_total y a with hm | hm
      · left; rw [List.foldl_cons, h]; exact Nat.max_eq_left hm
      · right
        rw [List.foldl_cons, h]
        have hy : Nat.max a y = y := Nat.max_eq_right hm
        rw [hy]
        exact List.mem_cons_self y ys
    · right; exact List.mem_cons_of_mem y h

lemma sheetRow_some_eq_spec (r : Nat) :
    ∀ (cols : List (List (List Char))) (c : List Char),
      sheetRow r cols (some c) = sheetRowSpec r cols c := by
  intro cols
  induction cols with
  | nil => intro c; rfl
  | cons col cols ih =>
    intro c
    cases h : col[r]? with
    | none => simp only [sheetRow, sheetRowSpec, h]; rw [ih]
    | some e =>
      simp only [sheetRow, sheetRowSpec, h, Option.some.injEq]
      by_cases hc : e ≠ restMarker ∧ e = c
      · rw [if_pos hc, if_pos hc, ih]
      · rw [if_neg hc, if_neg hc, ih]

lemma sheetRow_none_eq_spec (r : Nat) (cols : List (List (List Char))) :
    sheetRow r cols none = sheetRowSpec r cols restMarker := by
  cases cols with
  | nil => rfl
  | cons col cols =>
    cases h : col[r]? with
    | none => simp only [sheetRow, sheetRowSpec, h]; rw [sheetRow_some_eq_spec]
    | some e =>
      simp only [sheetRow, sheetRowSpec, h]
      rw [if_neg (by rintro ⟨h1, h2⟩; cases h2), if_neg (by rintro ⟨h1, h2⟩; exact h1 h2),
        sheetRow_some_eq_spec]

lemma brightnessLoop_getElem (row : Nat → Nat) :
    ∀ (ws : List Nat) (pos i : Nat),
      (brightnessLoop row pos ws)[i]? =
        ((sliceBounds pos ws)[i]?).map (fun p => sliceActivation row p.1 p.2) := by
  intro ws
  induction ws with
  | nil => intro pos i; rfl
  | cons w ws ih =>
    intro pos i
    cases i with
    | zero => simp [brightnessLoop, sliceBounds]
    | succ i => simpa [brightnessLoop, sliceBounds] using ih (min (pos + w) 1848) i

lemma regionSum_const (c : Nat) : ∀ (n x : Nat), regionSum (fun _ => c) x n = c * n := by
  intro n
  induction n with
  | zero => intro x; rfl
  | succ n ih =>
    intro x
    rw [regionSum, ih (x + 1)]
    ring

lemma regionMean_const (c : Nat) (xs xe : Nat) (h : xs < xe) :
    regionMean (fun _ => c) xs xe = some (c : ℚ) := by
  rw [regionMean, if_neg (not_le.mpr h)]
  have hw : ((xe - xs : Nat) : ℚ) ≠ 0 :=
    Nat.cast_ne_zero.mpr (Nat.sub_ne_zero_of_lt h)
  rw [regionSum_const]
  congr 1
  push_cast
  field_simp

lemma sliceActivation_const (c : Nat) (xs xe : Nat) (h : xs < xe) :
    sliceActivation (fun _ => c) xs xe = if (70 : ℚ) < (c : ℚ) / 255 * 100 then 1 else 0 := by
  rw [sliceActivation, regionMean_const c xs xe h]

lemma brightnessLoop_const (c : Nat) :
    ∀ (ws : List Nat) (pos : Nat), (∀ w ∈ ws, 0 < w) → pos + ws.sum ≤ 1848 →
      brightnessLoop (fun _ => c) pos ws =
        List.replicate ws.length (if (70 : ℚ) < (c : ℚ) / 255 * 100 then 1 else 0) := by
  intro ws
  induction ws with
  | nil => intro pos _ _; rfl
  | cons w ws ih =>
    intro pos hpos hsum
    rw [List.sum_cons] at hsum
    have hxe : min (pos + w) 1848 = pos + w := min_eq_left (by omega)
    rw [brightnessLoop, hxe, List.length_cons, List.replicate_succ,
      sliceActivation_const c pos (pos + w) (by have := hpos w (List.mem_cons_self w ws); omega),
      ih (pos + w) (fun x hx => hpos x (List.mem_cons_of_mem w hx)) (by omega)]

lemma collectActive_sublist : ∀ (bv : List Nat) (ns : List (List Char)),
    List.Sublist (collectActive bv ns) ns
  | [], ns => by cases ns <;> exact (List.nil_sublist _)
  | _ :: _, [] => List.nil_sublist _
  | v :: vs, n :: ns => by
    rw [collectActive]
    split
    · exact (collectActive_sublist vs ns).cons₂ n
    · exact (collectActive_sublist vs ns).cons n

lemma collectActive_mem : ∀ (bv : List Nat) (ns : List (List Char)) (i : Nat),
    bv[i]? = some 1 → ∀ x, ns[i]? = some x → x ∈ collectActive bv ns
  | [], _, i, h, _, _ => by simp at h
  | _ :: _, [], i, _, x, hx => by simp at hx
  | v :: vs, n :: ns, 0, h, x, hx => by
    simp only [List.getElem?_cons_zero, Option.some.injEq] at h hx
    rw [collectActive, if_pos h, ← hx]
    exact List.mem_cons_self n _
  | v :: vs, n :: ns, (i + 1), h, x, hx => by
    simp only [List.getElem?_cons_succ] at h hx
    have := collectActive_mem vs ns i h x hx
    rw [collectActive]
    split
    · exact List.mem_cons_of_mem n this
    · exact this

lemma processFrames_state : ∀ (frames : List (Option (Nat → Nat))) (s : ProcState),
    (processFrames frames s).rawLines = s.rawLines ++ loggedRaw frames s.frame_number ∧
    (processFrames frames s).csvLines = s.csvLines ++ loggedCsv frames s.frame_number ∧
    (processFrames frames s).frame_number = s.frame_number + frames.length ∧
    (processFrames frames s).failed_frames = s.failed_frames + frames.countP Option.isNone
  | [], s => by simp [processFrames, loggedRaw, loggedCsv]
  | none :: rest, s => by
    have ih := processFrames_state rest
      { s with failed_frames := s.failed_frames + 1, frame_number := s.frame_number + 1 }
    simp only [processFrames, loggedRaw, loggedCsv, List.length_cons, List.countP_cons] at ih ⊢
    refine ⟨ih.1, ih.2.1, by rw [ih.2.2.1]; omega, ?_⟩
    · rw [ih.2.2.2]
      simp
      omega
  | some row :: rest, s => by
    have ih := processFrames_state rest
      { rawLines := s.rawLines ++ [(analyze_frame_brightness row, (s.frame_number : ℚ) * frame_duration)]
        csvLines := s.csvLines ++ [((s.frame_number : ℚ) * frame_duration, analyze_frame_brightness row)]
        columns := s.columns ++ [buildColumn (analyze_frame_brightness row)]
        frame_number := s.frame_number + 1
        failed_frames := s.failed_frames }
    simp only [processFrames, loggedRaw, loggedCsv, List.length_cons, List.countP_cons] at ih ⊢
    refine ⟨by rw [ih.1]; simp, by rw [ih.2.1]; simp, by rw [ih.2.2.1]; omega, ?_⟩
    · rw [ih.2.2.2]
      simp

lemma loggedRaw_length : ∀ (frames : List (Option (Nat → Nat))) (n : Nat),
    (loggedRaw frames n).length + frames.countP Option.isNone = frames.length
  | [], _ => rfl
  | none :: rest, n => by
    have := loggedRaw_length rest (n + 1)
    simp only [loggedRaw, List.countP_cons, List.length_cons]
    simp
    omega
  | some row :: rest, n => by
    have := loggedRaw_length rest (n + 1)
    simp only [loggedRaw, List.countP_cons, List.length_cons]
    simp
    omega

lemma loggedCsv_length : ∀ (frames : List (Option (Nat → Nat))) (n : Nat),
    (loggedCsv frames n).length + frames.countP Option.isNone = frames.length
  | [], _ => rfl
  | none :: rest, n => by
    have := loggedCsv_length rest (n + 1)
    simp only [loggedCsv, List.countP_cons, List.length_cons]
    simp
    omega
  | some row :: rest, n => by
    have := loggedCsv_length rest (n + 1)
    simp only [loggedCsv, List.countP_cons, List.length_cons]
    simp
    omega

lemma loggedRaw_stamps : ∀ (frames : List (Option (Nat → Nat))) (n : Nat),
    (loggedRaw frames n).map Prod.snd = validStamps frames n
  | [], _ => rfl
  | none :: rest, n => by
    simp only [loggedRaw, validStamps]
    exact loggedRaw_stamps rest (n + 1)
  | some row :: rest, n => by
    simp only [loggedRaw, validStamps, List.map_cons]
    rw [loggedRaw_stamps rest (n + 1)]

lemma loggedCsv_stamps : ∀ (frames : List (Option (Nat → Nat))) (n : Nat),
    (loggedCsv frames n).map Prod.fst = validStamps frames n
  | [], _ => rfl
  | none :: rest, n => by
    simp only [loggedCsv, validStamps]
    exact loggedCsv_stamps rest (n + 1)
  | some row :: rest, n => by
    simp only [loggedCsv, validStamps, List.map_cons]
    rw [loggedCsv_stamps rest (n + 1)]

lemma digits_no_hash {ds : List Char} (h : ds.all Char.isDigit = true) :
    ds.contains '#' = false := by
  induction ds with
  | nil => rfl
  | cons c cs ih =>
    rw [List.all_cons, Bool.and_eq_true] at h
    have hc : (('#' : Char) == c) = false := by
      cases hq : ('#' : Char) == c
      · rfl
      · exfalso
        have hcc : c = '#' := (eq_of_beq hq).symm
        rw [hcc] at h
        exact absurd h.1 (by decide)
    rw [List.contains_cons, hc, ih h.2, Bool.or_self]

lemma parseNat_digits {ds : List Char} {o : Nat} (hp : parseNat ds = some o) :
    ds.all Char.isDigit = true := by
  rw [parseNat] at hp
  split at hp
  · next h => exact h.2
  · cases hp

lemma gnpv_plain (a : Char) (ds : List Char) (o v : Nat) (ha : (('#' : Char) == a) = false)
    (hds : ds.contains '#' = false) (hp : parseNat ds = some o)
    (hv : List.lookup [a] note_values = some v) :
    get_note_pitch_value (a :: ds) = some (o * 12 + v) := by
  rw [get_note_pitch_value]
  simp only [List.contains_cons, ha, hds, Bool.or_self, Bool.false_eq_true, if_false,
    List.take_succ_cons, List.take_zero, List.drop_succ_cons, List.drop_zero]
  rw [hp, hv]

lemma gnpv_sharp (a : Char) (ds : List Char) (o v : Nat) (hp : parseNat ds = some o)
    (hv : List.lookup [a, '#'] note_values = some v) :
    get_note_pitch_value (a :: '#' :: ds) = some (o * 12 + v) := by
  rw [get_note_pitch_value]
  simp only [List.contains_cons, beq_self_eq_true, Bool.or_true, Bool.true_or, if_true,
    List.take_succ_cons, List.take_zero, List.drop_succ_cons, List.drop_zero]
  rw [hp, hv]

lemma piano_nodup : piano_notes.Nodup := by decide

lemma buildColumn_of_mem {bv : List Nat} {x : List Char}
    (hx : x ∈ sortDesc (collectActive bv piano_notes)) :
    buildColumn bv = (sortDesc (collectActive bv piano_notes)).map format_note_3char := by
  have hemp : (sortDesc (collectActive bv piano_notes)).isEmpty = false := by
    cases h : sortDesc (collectActive bv piano_notes)
    · rw [h] at hx; cases hx
    · rfl
  simp only [buildColumn, hemp, Bool.false_eq_true, if_false]

lemma pitchKey_inj : ∀ x ∈ piano_notes, ∀ y ∈ piano_notes, pitchKey x = pitchKey y → x = y :=
  List.inj_on_of_nodup_map (by decide : (piano_notes.map pitchKey).Nodup)

lemma format_inj : ∀ x ∈ piano_notes, ∀ y ∈ piano_notes,
    format_note_3char x = format_note_3char y → x = y :=
  List.inj_on_of_nodup_map (by decide : (piano_notes.map format_note_3char).Nodup)

/-! ## Claim theorems -/

/-- C5: the fixed slice-width table has exactly 88 entries, all positive,
summing to the frame width 1848, and the cumulative bounds give slice 0 an
`x_start` of 0, slice 87 an `x_end` of 1848, and make consecutive slices
abut exactly (`x_end` of each slice equals `x_start` of the next). -/
theorem claim_C5 :
    vertical_slices.length = 88 ∧
    (∀ w ∈ vertical_slices, 0 < w) ∧
    vertical_slices.sum = 1848 ∧
    (sliceBounds 0 vertical_slices).length = 88 ∧
    ((sliceBounds 0 vertical_slices).head?.map Prod.fst) = some 0 ∧
    ((sliceBounds 0 vertical_slices).getLast?.map Prod.snd) = some 1848 ∧
    (∀ i : Fin 87,
      ((sliceBounds 0 vertical_slices)[(i : Nat)]?).map Prod.snd =
        ((sliceBounds 0 vertical_slices)[(i : Nat) + 1]?).map Prod.fst) := by
  refine ⟨by decide, by decide, by decide, by decide, by decide, by decide, by decide⟩

/-- Witness for C5: slice width 29 is an entry of the table and is positive. -/
theorem claim_C5_witness : 29 ∈ vertical_slices ∧ 0 < 29 :=
  ⟨by decide, claim_C5.2.1 29 (by decide)⟩

/-- C6: the 88 note labels start at `A0`, end at `C8`, are pairwise distinct
(a bijection with slice indices), and the octave number written in label
`i + 1` is the octave of label `i` plus one exactly when label `i + 1` has
pitch class C, unchanged otherwise. -/
theorem claim_C6 :
    piano_notes.length = 88 ∧
    piano_notes.head? = some ['A', '0'] ∧
    piano_notes.getLast? = some ['C', '8'] ∧
    piano_notes.Nodup ∧
    (∀ i : Fin 87,
      octaveOf (piano_notes.getD ((i : Nat) + 1) []) =
        (octaveOf (piano_notes.getD (i : Nat) [])).map
          (fun a => if tagOf (piano_notes.getD ((i : Nat) + 1) []) = ['C'] then a + 1 else a)) := by
  refine ⟨by decide, by decide, by decide, by decide, by decide⟩

/-- C7 counterexample: on the length-1 input `"C"` (length neither 2 nor 3)
`format_note_3char` silently returns the substitute token `'---'`; no failure
of any kind occurs, contradicting the claimed `FormatError`. -/
theorem claim_C7_cex : format_note_3char ['C'] = ['-', '-', '-'] := by decide

/-- C7 amended: a 2-character name is padded with one trailing space, a
3-character name is returned unchanged, and any other length silently
produces the fallback token `'---'` (the same token used as the rest marker)
instead of failing. -/
theorem claim_C7_amended (s : List Char) :
    (s.length = 2 → format_note_3char s = s ++ [' ']) ∧
    (s.length = 3 → format_note_3char s = s) ∧
    (s.length ≠ 2 → s.length ≠ 3 → format_note_3char s = ['-', '-', '-']) := by
  refine ⟨fun h2 => ?_, fun h3 => ?_, fun h2 h3 => ?_⟩
  · rw [format_note_3char, if_pos h2]
  · rw [format_note_3char, if_neg (by omega), if_pos h3]
  · rw [format_note_3char, if_neg h2, if_neg h3]

/-- Witness for C7: the 2-character label `"C4"` is padded to `"C4 "`. -/
theorem claim_C7_witness :
    (['C', '4'] : List Char).length = 2 ∧ format_note_3char ['C', '4'] = ['C', '4', ' '] :=
  ⟨by decide, (claim_C7_amended ['C', '4']).1 (by decide)⟩

/-- C2: finalization emits exactly `max_notes` lines, `max_notes` is 1 for an
empty stream and otherwise the maximum column length (attained by some
column), and each emitted row equals the walk described by the spec's cursor
discipline (`sheetRowSpec`): the cursor starts at and resets to the rest
marker for short columns, the repeat marker replaces an entry exactly when
the entry is not a rest and equals the cursor, and the cursor is updated to
the entry only when the entry itself is emitted. -/
theorem claim_C2 (cols : List (List (List Char))) :
    (sheet_lines cols).length = max_notes cols ∧
    (cols = [] → max_notes cols = 1) ∧
    (∀ c ∈ cols, c.length ≤ max_notes cols) ∧
    (cols ≠ [] → ∃ c ∈ cols, c.length = max_notes cols) ∧
    (∀ r : Nat, sheetRow r cols none = sheetRowSpec r cols restMarker) := by
  refine ⟨?_, ?_, ?_, ?_, fun r => sheetRow_none_eq_spec r cols⟩
  · simp [sheet_lines]
  · intro h; subst h; rfl
  · intro c hc
    have hne : cols.isEmpty = false := by
      cases cols
      · cases hc
      · rfl
    rw [max_notes, hne, if_neg (by simp)]
    exact le_foldl_max (cols.map List.length) 0 c.length (List.mem_map_of_mem List.length hc)
  · intro hne
    have hne' : cols.isEmpty = false := by
      cases cols
      · exact absurd rfl hne
      · rfl
    rw [max_notes, hne', if_neg (by simp)]
    rcases foldl_max_mem (cols.map List.length) 0 with h | h
    · rcases cols with _ | ⟨c0, rest⟩
      · exact absurd rfl hne
      · refine ⟨c0, List.mem_cons_self c0 rest, ?_⟩
        have hle : c0.length ≤ (((c0 :: rest).map List.length).foldl Nat.max 0) :=
          le_foldl_max _ 0 c0.length (List.mem_map_of_mem List.length (List.mem_cons_self c0 rest))
        omega
    · rcases List.mem_map.mp h with ⟨c, hc, hlen⟩
      exact ⟨c, hc, hlen⟩

/-- Witness for C2: on a concrete 1-column buffer the maximum row count is
attained by some column, and the empty buffer yields one row. -/
theorem claim_C2_witness :
    ([[['C', '4', ' ']]] : List (List (List Char))) ≠ [] ∧
    (∃ c ∈ ([[['C', '4', ' ']]] : List (List (List Char))), c.length = max_notes [[['C', '4', ' ']]]) :=
  ⟨by decide, (claim_C2 [[['C', '4', ' ']]]).2.2.2.1 (by decide)⟩

/-- C3 counterexample: on the concrete 3-frame stream that activates only C4
(slice 39) in frames 1 and 2 and nothing in frame 3, the single sheet row is
`C4 `, `---`, `---`, and the token emitted for the collapsed repeat (index 1)
is identical to the token emitted for the rest (index 2) — the two markers
are not distinguishable, contradicting the claim's final conjunct. -/
theorem claim_C3_cex :
    (sheet_lines
        [buildColumn ((List.replicate 88 0).set 39 1),
         buildColumn ((List.replicate 88 0).set 39 1),
         buildColumn (List.replicate 88 0)]).getD 0 [] =
      [['C', '4', ' '], ['-', '-', '-'], ['-', '-', '-']] ∧
    ((sheet_lines
        [buildColumn ((List.replicate 88 0).set 39 1),
         buildColumn ((List.replicate 88 0).set 39 1),
         buildColumn (List.replicate 88 0)]).getD 0 [])[1]? =
      ((sheet_lines
        [buildColumn ((List.replicate 88 0).set 39 1),
         buildColumn ((List.replicate 88 0).set 39 1),
         buildColumn (List.replicate 88 0)]).getD 0 [])[2]? := by
  refine ⟨by decide, by decide⟩

/-- C3 amended: for every note X, the 3-frame stream activating exactly X,
then exactly X, then nothing yields a single sheet row whose tokens are the
label of X, the repeat marker and the rest marker — but repeat marker and
rest marker are the same token `'---'`, so they are not distinguishable in
the output. -/
theorem claim_C3_amended :
    ∀ k : Fin 88,
      sheet_lines
          [buildColumn ((List.replicate 88 0).set k 1),
           buildColumn ((List.replicate 88 0).set k 1),
           buildColumn (List.replicate 88 0)] =
        [[format_note_3char (piano_notes.getD k []), restMarker, restMarker]] := by decide

/-- C1: for every frame and every slice of positive width, the activation is
1 exactly when the arithmetic mean of the row-0 pixels over
`[x_start, x_end)` divided by 255 and multiplied by 100 strictly exceeds 70;
in particular the all-white frame activates every slice and the all-black
frame none. -/
theorem claim_C1 :
    (∀ (row : Nat → Nat) (i xs xe : Nat),
        (sliceBounds 0 vertical_slices)[i]? = some (xs, xe) → xs < xe →
        ((analyze_frame_brightness row)[i]? = some 1 ↔
          70 < ((regionSum row xs (xe - xs) : ℚ) / ((xe - xs : Nat) : ℚ)) / 255 * 100)) ∧
    analyze_frame_brightness (fun _ => 255) = List.replicate 88 1 ∧
    analyze_frame_brightness (fun _ => 0) = List.replicate 88 0 := by
  refine ⟨?_, ?_, ?_⟩
  · intro row i xs xe hb hlt
    rw [analyze_frame_brightness, brightnessLoop_getElem, hb]
    simp only [Option.map_some']
    rw [sliceActivation, regionMean, if_neg (not_le.mpr hlt)]
    by_cases hcond :
        70 < ((regionSum row xs (xe - xs) : ℚ) / ((xe - xs : Nat) : ℚ)) / 255 * 100
    · simp [hcond]
    · simp [hcond]
  · rw [analyze_frame_brightness,
      brightnessLoop_const 255 vertical_slices 0 (by decide) (by decide),
      if_pos (by norm_num), show vertical_slices.length = 88 by decide]
  · rw [analyze_frame_brightness,
      brightnessLoop_const 0 vertical_slices 0 (by decide) (by decide),
      if_neg (by norm_num), show vertical_slices.length = 88 by decide]

/-- Witness for C1: slice 0 has bounds `(0, 29)`, a positive width, and on
the all-white frame its activation is 1 with the mean test satisfied. -/
theorem claim_C1_witness :
    (sliceBounds 0 vertical_slices)[0]? = some (0, 29) ∧ 0 < 29 ∧
    ((analyze_frame_brightness (fun _ => 255))[0]? = some 1 ↔
      70 < ((regionSum (fun _ => 255) 0 (29 - 0) : ℚ) / ((29 - 0 : Nat) : ℚ)) / 255 * 100) :=
  ⟨by decide, by decide, claim_C1.1 (fun _ => 255) 0 0 29 (by decide) (by decide)⟩

/-- C9 counterexample: at a slice whose clamped width is 0 (here a 5-pixel
slice starting at the frame edge 1848, clamped to `x_end = 1848`), the mean
of the empty pixel region *is* the NaN case — `regionMean` is `none`, the
model of `np.mean` of an empty slice — so the activation 0 does not come
from an explicit guard; it comes from the comparison `nan > 70` being false.
This refutes the claim's "via an explicit guard, rather than a
division-by-zero or NaN from taking the mean of an empty pixel region". -/
theorem claim_C9_cex :
    regionMean (fun _ => 255) 1848 (min (1848 + 5) 1848) = none ∧
    brightnessLoop (fun _ => 255) 1848 [5] = [0] := by
  refine ⟨by decide, by decide⟩

/-- C9 amended: a slice whose width is 0 after clamping yields activation 0,
but not via an explicit guard — the mean of the empty region is NaN
(modelled as `none`) and the binarization comparison against 70 is false on
it, which yields 0.  (With the fixed width table no zero-width slice
actually arises, since the widths sum exactly to 1848.) -/
theorem claim_C9_amended (row : Nat → Nat) (pos w : Nat)
    (h : min (pos + w) 1848 ≤ pos) :
    regionMean row pos (min (pos + w) 1848) = none ∧
    sliceActivation row pos (min (pos + w) 1848) = 0 := by
  have h1 : regionMean row pos (min (pos + w) 1848) = none := by
    rw [regionMean, if_pos h]
  exact ⟨h1, by rw [sliceActivation, h1]⟩

/-- Witness for C9: the concrete zero-width slice at the frame edge. -/
theorem claim_C9_witness :
    min (1848 + 5) 1848 ≤ 1848 ∧
    (regionMean (fun _ => 0) 1848 (min (1848 + 5) 1848) = none ∧
      sliceActivation (fun _ => 0) 1848 (min (1848 + 5) 1848) = 0) :=
  ⟨by decide, claim_C9_amended (fun _ => 0) 1848 5 (by decide)⟩

/-- C4: for every well-formed note label — a pitch-class key of `note_values`
followed by the decimal digits of an octave — the parsed pitch value is
`octave * 12 +` the fixed pitch-class index (C=0 … B=11); consequently
`pitch_value C4 = 48` and `pitch_value G3 = 43`, and in any frame activating
both C4 (slice 39) and G3 (slice 34) the sheet column places C4 before G3. -/
theorem claim_C4 :
    (∀ kv ∈ note_values, ∀ (ds : List Char) (o : Nat),
        parseNat ds = some o →
        get_note_pitch_value (kv.1 ++ ds) = some (o * 12 + kv.2)) ∧
    get_note_pitch_value ['C', '4'] = some 48 ∧
    get_note_pitch_value ['G', '3'] = some 43 ∧
    (∀ bv : List Nat, bv[39]? = some 1 → bv[34]? = some 1 →
        ∃ i j : Nat, i < j ∧
          (buildColumn bv)[i]? = some ['C', '4', ' '] ∧
          (buildColumn bv)[j]? = some ['G', '3', ' ']) := by
  refine ⟨?_, by decide, by decide, ?_⟩
  · intro kv hkv ds o hp
    have hds := digits_no_hash (parseNat_digits hp)
    fin_cases hkv
    · exact gnpv_plain 'C' ds o 0 (by decide) hds hp (by decide)
    · exact gnpv_sharp 'C' ds o 1 hp (by decide)
    · exact gnpv_plain 'D' ds o 2 (by decide) hds hp (by decide)
    · exact gnpv_sharp 'D' ds o 3 hp (by decide)
    · exact gnpv_plain 'E' ds o 4 (by decide) hds hp (by decide)
    · exact gnpv_plain 'F' ds o 5 (by decide) hds hp (by decide)
    · exact gnpv_sharp 'F' ds o 6 hp (by decide)
    · exact gnpv_plain 'G' ds o 7 (by decide) hds hp (by decide)
    · exact gnpv_sharp 'G' ds o 8 hp (by decide)
    · exact gnpv_plain 'A' ds o 9 (by decide) hds hp (by decide)
    · exact gnpv_sharp 'A' ds o 10 hp (by decide)
    · exact gnpv_plain 'B' ds o 11 (by decide) hds hp (by decide)
  · intro bv h39 h34
    have hC4m : ['C', '4'] ∈ collectActive bv piano_notes :=
      collectActive_mem bv piano_notes 39 h39 ['C', '4'] (by decide)
    have hG3m : ['G', '3'] ∈ collectActive bv piano_notes :=
      collectActive_mem bv piano_notes 34 h34 ['G', '3'] (by decide)
    have hC4s : ['C', '4'] ∈ sortDesc (collectActive bv piano_notes) := by
      rw [sortDesc]
      exact (List.mem_insertionSort pitchGe).mpr hC4m
    have hG3s : ['G', '3'] ∈ sortDesc (collectActive bv piano_notes) := by
      rw [sortDesc]
      exact (List.mem_insertionSort pitchGe).mpr hG3m
    obtain ⟨i, hi, hgi⟩ := List.getElem_of_mem hC4s
    obtain ⟨j, hj, hgj⟩ := List.getElem_of_mem hG3s
    have hsorted : (sortDesc (collectActive bv piano_notes)).Pairwise pitchGe := by
      rw [sortDesc]
      exact List.sorted_insertionSort pitchGe _
    have hiq : (sortDesc (collectActive bv piano_notes))[i]? = some ['C', '4'] := by
      rw [List.getElem?_eq_getElem hi, hgi]
    have hjq : (sortDesc (collectActive bv piano_notes))[j]? = some ['G', '3'] := by
      rw [List.getElem?_eq_getElem hj, hgj]
    have hij : i < j := by
      rcases Nat.lt_trichotomy i j with h | h | h
      · exact h
      · exfalso
        rw [h, hjq] at hiq
        exact absurd hiq (by decide)
      · exfalso
        have hge := List.pairwise_iff_getElem.mp hsorted j i hj hi h
        rw [hgi, hgj] at hge
        exact absurd hge (by decide)
    refine ⟨i, j, hij, ?_, ?_⟩
    · rw [buildColumn_of_mem hC4s, List.getElem?_map, List.getElem?_eq_getElem hi, hgi]
      rfl
    · rw [buildColumn_of_mem hC4s, List.getElem?_map, List.getElem?_eq_getElem hj, hgj]
      rfl

/-- Witness for C4: the general formula applied to the sharp label `C#5`,
and the C4-before-G3 ordering on a concrete frame activating exactly
slices 39 (C4) and 34 (G3). -/
theorem claim_C4_witness :
    get_note_pitch_value (['C', '#'] ++ ['5']) = some (5 * 12 + 1) ∧
    (∃ i j : Nat, i < j ∧
      (buildColumn (((List.replicate 88 0).set 39 1).set 34 1))[i]? = some ['C', '4', ' '] ∧
      (buildColumn (((List.replicate 88 0).set 39 1).set 34 1))[j]? = some ['G', '3', ' ']) :=
  ⟨claim_C4.1 (['C', '#'], 1) (by decide) ['5'] 5 (by decide),
   claim_C4.2.2.2 (((List.replicate 88 0).set 39 1).set 34 1) (by decide) (by decide)⟩

/-- C10: for every activation vector, the sorted active-note list is strictly
decreasing in pitch and duplicate-free, and the built sheet column contains
pairwise-distinct tokens — so no label repeats within one frame's column and
repeat collapsing can only trigger across frames at the same row index. -/
theorem claim_C10 (bv : List Nat) :
    (sortDesc (collectActive bv piano_notes)).Pairwise (fun a b => pitchKey b < pitchKey a) ∧
    (sortDesc (collectActive bv piano_notes)).Nodup ∧
    (buildColumn bv).Nodup := by
  have hsub := collectActive_sublist bv piano_notes
  have hnd : (collectActive bv piano_notes).Nodup := hsub.nodup piano_nodup
  have hperm : List.Perm (sortDesc (collectActive bv piano_notes))
      (collectActive bv piano_notes) := by
    rw [sortDesc]
    exact List.perm_insertionSort pitchGe _
  have hndS : (sortDesc (collectActive bv piano_notes)).Nodup := hperm.nodup_iff.mpr hnd
  have hmem : ∀ x ∈ sortDesc (collectActive bv piano_notes), x ∈ piano_notes := by
    intro x hx
    exact hsub.subset (hperm.mem_iff.mp hx)
  have hsorted : (sortDesc (collectActive bv piano_notes)).Pairwise pitchGe := by
    rw [sortDesc]
    exact List.sorted_insertionSort pitchGe _
  have hstrict : (sortDesc (collectActive bv piano_notes)).Pairwise
      (fun a b => pitchKey b < pitchKey a) := by
    rw [List.pairwise_iff_getElem]
    intro i j hi hj hij
    have hge := List.pairwise_iff_getElem.mp hsorted i j hi hj hij
    have hne : (sortDesc (collectActive bv piano_notes))[i] ≠
        (sortDesc (collectActive bv piano_notes))[j] := by
      intro he
      exact absurd (hndS.getElem_inj_iff.mp he) (Nat.ne_of_lt hij)
    refine Nat.lt_of_le_of_ne hge ?_
    intro hk
    exact hne (pitchKey_inj _ (hmem _ (List.getElem_mem hi)) _ (hmem _ (List.getElem_mem hj))
      hk.symm)
  refine ⟨hstrict, hndS, ?_⟩
  cases hemp : (sortDesc (collectActive bv piano_notes)).isEmpty with
  | true => simp [buildColumn, hemp]
  | false =>
    simp only [buildColumn, hemp, Bool.false_eq_true, if_false]
    exact hndS.map_on (fun x hx y hy h => format_inj x (hmem x hx) y (hmem y hy) h)

/-- C8: for a stream of `N` frames of which `k` are corrupt, exactly `N - k`
data lines are written to the raw log and to the tabular log, the reported
failure count is `k`, the frame counter still advances to `N`, and the
timestamps of the logged lines are computed from the frames' original
indices out of `N` (skipped frames occupy a timestamp slot). -/
theorem claim_C8 (frames : List (Option (Nat → Nat))) :
    (process_video frames).rawLines.length =
      frames.length - frames.countP Option.isNone ∧
    (process_video frames).csvLines.length =
      frames.length - frames.countP Option.isNone ∧
    (process_video frames).failed_frames = frames.countP Option.isNone ∧
    (process_video frames).frame_number = frames.length ∧
    (process_video frames).rawLines.map Prod.snd = validStamps frames 0 ∧
    (process_video frames).csvLines.map Prod.fst = validStamps frames 0 := by
  have hs := processFrames_state frames ⟨[], [], [], 0, 0⟩
  have hraw := loggedRaw_length frames 0
  have hcsv := loggedCsv_length frames 0
  rw [process_video]
  refine ⟨?_, ?_, ?_, ?_, ?_, ?_⟩
  · rw [hs.1]
    simp only [List.nil_append]
    omega
  · rw [hs.2.1]
    simp only [List.nil_append]
    omega
  · rw [hs.2.2.2]
    simp
  · rw [hs.2.2.1]
    simp
  · rw [hs.1]
    simp only [List.nil_append]
    exact loggedRaw_stamps frames 0
  · rw [hs.2.1]
    simp only [List.nil_append]
    exact loggedCsv_stamps frames 0

end LightToSheet
